import Mathlib

/-!
Shallow embedding of the go-agent repository's invocation engine
(`tools/evaluation`), its tool registries (`tools/toolstore` and the older
`tools` package), and the streaming generation engine (`llm`).

Go's dynamically typed `interface{}` argument values are modelled by the
inductive `GoVal`; Go `float64` values are modelled by exact rationals
(every numeric literal appearing in the claims is exactly representable in
IEEE double and the quotients involved are exact, so the rational model
agrees with the float semantics on all inputs used here).  Go runtime
panics are modelled explicitly: a panic inside the invoked callable is a
`FuncCallResult.panics`, a reflection panic inside the engine itself is a
`ConvRes.goPanic` / `EvalResult.goPanic`.
-/

set_option autoImplicit false

namespace GoAgent

/-- The dynamic (reflect) types occurring in the modelled universe. -/
inductive GoTy where
  | float64
  | int
  | str
  | bool
  | slice (elem : GoTy)
  | errorTy
  deriving DecidableEq, Repr

/-- Go rendering of a type, as `reflect.Type.String` produces it. -/
def tyStr : GoTy → String
  | .float64 => "float64"
  | .int => "int"
  | .str => "string"
  | .bool => "bool"
  | .slice e => "[]" ++ tyStr e
  | .errorTy => "error"

/-- A dynamically typed Go value stored in an `interface{}`.
`vslice elem xs` is a Go slice value whose static element type is `elem`
(in Go, `reflect.Value.Index(j).Type()` is always the slice's element
type).  `verr (some m)` is a non-nil value of type `error` with message
`m`, `verr none` a nil `error`.  `vnil` is the untyped nil interface:
`reflect.ValueOf(nil)` is the invalid zero `reflect.Value`. -/
inductive GoVal where
  | vfloat (q : ℚ)
  | vint (n : ℤ)
  | vstring (s : String)
  | vbool (b : Bool)
  | vslice (elem : GoTy) (elems : List GoVal)
  | verr (msg : Option String)
  | vnil

/-- The dynamic type of a value: `reflect.ValueOf(v).Type()`.
`none` for the untyped nil interface, where `Type()` panics. -/
def GoVal.ty : GoVal → Option GoTy
  | .vfloat _ => some .float64
  | .vint _ => some .int
  | .vstring _ => some .str
  | .vbool _ => some .bool
  | .vslice e _ => some (.slice e)
  | .verr _ => some .errorTy
  | .vnil => none

/-- `reflect.Value.Kind() == reflect.Slice`.  The invalid zero value has
kind `Invalid`, so this is false on `vnil` without panicking. -/
def GoVal.isSliceKind : GoVal → Bool
  | .vslice _ _ => true
  | _ => false

/-- `reflect.Type.AssignableTo`: in the modelled universe (no interface
parameter types, no named types) assignability is type identity. -/
def assignableTo (actual expected : GoTy) : Bool :=
  actual == expected

/-- `reflect.Value.CanConvert` / `Convert`, restricted to the modelled
types: Go permits conversions between the numeric types `int` and
`float64` (float to int truncates toward zero), `int` to `string`
(the UTF-8 of the code point), and the identity conversion.
No other pair of modelled types is convertible. -/
def convertVal (v : GoVal) (t : GoTy) : Option GoVal :=
  match v, t with
  | .vint n, .int => some (.vint n)
  | .vint n, .float64 => some (.vfloat (n : ℚ))
  | .vint n, .str =>
      if 0 ≤ n ∧ n < 0x110000 ∧ ¬(0xd800 ≤ n ∧ n ≤ 0xdfff) then
        some (.vstring (String.mk [Char.ofNat n.toNat]))
      else some (.vstring "�")
  | .vfloat q, .float64 => some (.vfloat q)
  | .vfloat q, .int =>
      some (.vint (if 0 ≤ q then ⌊q⌋ else ⌈q⌉))
  | .vstring s, .str => some (.vstring s)
  | .vbool b, .bool => some (.vbool b)
  | .vslice e xs, .slice e2 => if e = e2 then some (.vslice e xs) else none
  | .verr m, .errorTy => some (.verr m)
  | _, _ => none

/-! ### Rendering of values, as `fmt` prints `reflect.Value`s

`fmt` formats a `reflect.Value` as the value it holds.  Integer-valued
floats print without a decimal point; non-integer rationals are rendered
as `num/den`, an inessential deviation from Go's decimal float rendering
(no claim depends on the rendering of a non-integer float). -/

def showRat (q : ℚ) : String :=
  if q.den = 1 then toString q.num
  else toString q.num ++ "/" ++ toString q.den

/-- `fmt`'s `%v` of one dynamic value. -/
def showVal : GoVal → String
  | .vfloat q => showRat q
  | .vint n => toString n
  | .vstring s => s
  | .vbool b => if b then "true" else "false"
  | .verr (some m) => m
  | .verr none => "<nil>"
  | .vnil => "<invalid reflect.Value>"
  | .vslice _ elems =>
      "[" ++ String.intercalate " " (elems.attach.map (fun e => showVal e.1)) ++ "]"
decreasing_by
  simp_wf
  have := List.sizeOf_lt_of_mem e.2
  omega

/-- `fmt`'s `%v` of a `[]reflect.Value` argument vector. -/
def showArgList (vals : List GoVal) : String :=
  "[" ++ String.intercalate " " (vals.map showVal) ++ "]"

/-! ### Error messages produced by the `evaluation` package -/

/-- `"expected %d arguments, got %d"` (non-variadic arity failure). -/
def countMismatchMsg (expected got : Nat) : String :=
  "expected " ++ toString expected ++ " arguments, got " ++ toString got

/-- `"expected at least %d arguments, got %d"` (variadic arity failure). -/
def countMismatchAtLeastMsg (expected got : Nat) : String :=
  "expected at least " ++ toString expected ++ " arguments, got " ++ toString got

/-- `"argument %d: expected %s, got %s"` with the 1-based position. -/
def typeMismatchMsg (pos : Nat) (expected actual : GoTy) : String :=
  "argument " ++ toString pos ++ ": expected " ++ tyStr expected ++
    ", got " ++ tyStr actual

/-- `"argument %d (element %d): expected %s, got %s"`, both 1-based. -/
def elemMismatchMsg (pos elemPos : Nat) (expected actual : GoTy) : String :=
  "argument " ++ toString pos ++ " (element " ++ toString elemPos ++
    "): expected " ++ tyStr expected ++ ", got " ++ tyStr actual

/-- `"function panicked with argument(s) %v: %v"` built by `callFunction`'s
recover handler: it carries the argument values and the panic payload. -/
def panicMsg (vals : List GoVal) (r : String) : String :=
  "function panicked with argument(s) " ++ showArgList vals ++ ": " ++ r

/-- The runtime panic message of `reflect.Value.Type` on the invalid zero
value, i.e. on `reflect.ValueOf(nil)`. -/
def nilTypePanicMsg : String :=
  "reflect: call of reflect.Value.Type on zero Value"

/-! ### `evaluation.convertArguments` -/

/-- Outcome of the argument-reconciliation loop.  `typeErr` is the error
return of `convertArguments`; `goPanic` is a reflection panic raised by
the loop itself (it is NOT caught by `callFunction`'s recover, which
wraps only the call step). -/
inductive ConvRes where
  | ok (vals : List GoVal)
  | typeErr (msg : String)
  | goPanic (msg : String)

/-- `reflect.Type.In(i)`: panics (modelled as `.error`) out of range. -/
def typeIn (params : List GoTy) (i : Nat) : Except String GoTy :=
  match params.get? i with
  | some t => .ok t
  | none => .error "reflect: Type.In index out of range"

/-- `reflect.Type.Elem` on a slice type; panics on any other type. -/
def elemTy : GoTy → Option GoTy
  | .slice e => some e
  | _ => none

/-- The expected type the loop selects for position `i`: for a variadic
function and `i >= numIn-1` it is `functionType.In(numIn-1).Elem()`,
otherwise `functionType.In(i)`. -/
def expectedTypeFor (params : List GoTy) (variadic : Bool) (i : Nat) :
    Except String GoTy :=
  if variadic = true ∧ params.length - 1 ≤ i then
    match typeIn params (params.length - 1) with
    | .ok t =>
        match elemTy t with
        | some e => .ok e
        | none => .error "reflect: Elem of invalid type"
    | .error m => .error m
  else typeIn params i

/-- The inner unpacking loop over a slice argument's elements at (1-based)
argument position `pos`: each element's static type — the slice's element
type `sElem` — must be assignable to the expected element type; no
conversion is attempted for elements.  `elemPos` is the 1-based index of
the next element. -/
def checkSliceElemsFrom (expected sElem : GoTy) (pos : Nat) :
    Nat → List GoVal → Except String (List GoVal)
  | _, [] => .ok []
  | elemPos, e :: rest =>
      if assignableTo sElem expected then
        match checkSliceElemsFrom expected sElem pos (elemPos + 1) rest with
        | .ok more => .ok (e :: more)
        | .error m => .error m
      else .error (elemMismatchMsg pos elemPos expected sElem)

/-- Reconciliation of one non-unpacked argument: accepted as-is when its
dynamic type is assignable to the expected type, converted when a
conversion exists, rejected with a 1-based position otherwise.
`reflect.ValueOf(vnil)` is the invalid zero value, whose `Type()` call
panics. -/
def convOne (expected : GoTy) (i : Nat) (arg : GoVal) : ConvRes :=
  match arg.ty with
  | none => .goPanic nilTypePanicMsg
  | some actual =>
      if assignableTo actual expected then .ok [arg]
      else
        match convertVal arg expected with
        | some v => .ok [v]
        | none => .typeErr (typeMismatchMsg (i + 1) expected actual)

/-- The body of `convertArguments`'s `for i, arg := range args` loop,
starting at index `i`. -/
def convArgsFrom (params : List GoTy) (variadic : Bool) :
    Nat → List GoVal → ConvRes
  | _, [] => .ok []
  | i, arg :: rest =>
      match expectedTypeFor params variadic i with
      | .error m => .goPanic m
      | .ok expected =>
          let head : ConvRes :=
            match arg with
            | .vslice sElem elems =>
                if variadic = true ∧ params.length - 1 ≤ i then
                  match checkSliceElemsFrom expected sElem (i + 1) 1 elems with
                  | .ok vals => .ok vals
                  | .error m => .typeErr m
                else convOne expected i (.vslice sElem elems)
            | a => convOne expected i a
          match head with
          | .ok vals =>
              match convArgsFrom params variadic (i + 1) rest with
              | .ok more => .ok (vals ++ more)
              | r => r
          | r => r

/-- `evaluation.convertArguments`. -/
def convertArguments (args : List GoVal) (params : List GoTy)
    (variadic : Bool) : ConvRes :=
  convArgsFrom params variadic 0 args

/-! ### `evaluation.Tool` and `Evaluate` -/

/-- The sentinel errors of the `evaluation` package, with the dynamic
message the `fmt.Errorf("%w: ...")` wrapping attaches.
`functionReported` is not one of the sentinels: it is the callable's own
non-nil trailing `error` value, returned unwrapped by `extractResults`. -/
inductive EvalError where
  | notAFunction
  | argumentMismatch (msg : String)
  | argumentType (msg : String)
  | functionPanic (msg : String)
  | functionReported (msg : String)
  deriving DecidableEq, Repr

/-- The observable outcome of `Evaluate`: a normal Go return
`([]interface{}, error)`, or an uncaught runtime panic escaping
`Evaluate` itself. -/
inductive EvalResult where
  | ret (results : List GoVal) (failure : Option EvalError)
  | goPanic (msg : String)

/-- What the underlying callable does when called with a reconciled
argument vector: return values normally, or raise a runtime fault. -/
inductive FuncCallResult where
  | ret (results : List GoVal)
  | panics (msg : String)

/-- A Go function value as reflection sees it: `params` are the `NumIn()`
declared parameter types (for a variadic function the last entry is the
slice type of the variadic parameter), and `impl` its behaviour on a
reconciled argument vector. -/
structure GoFunc where
  params : List GoTy
  variadic : Bool
  impl : List GoVal → FuncCallResult

/-- The `Function interface{}` field of a `Tool`: either a function value
or some non-function value (`none` models the nil interface of the
zero-value `Tool`), on which `reflect.ValueOf(..).Kind()` is not `Func`. -/
inductive FuncField where
  | fn (f : GoFunc)
  | notFn (v : Option GoVal)

/-- `metadata.Param`. -/
structure MetaParam where
  Name : String := ""
  Desc : String := ""
  deriving DecidableEq, Repr

/-- `metadata.ReturnType`.  The Go field `Type` is rendered `Typ`, since
`Type` is reserved in Lean. -/
structure MetaReturnType where
  Typ : String := ""
  Description : String := ""
  deriving DecidableEq, Repr

/-- `metadata.Constraint`. -/
structure MetaConstraint where
  Condition : String := ""
  Desc : String := ""
  deriving DecidableEq, Repr

/-- `metadata.FunctionMetaData`. -/
structure FunctionMetaData where
  FunctionName : String := ""
  Description : String := ""
  Params : List MetaParam := []
  Return : List MetaReturnType := []
  Examples : List String := []
  Constraints : List MetaConstraint := []
  deriving DecidableEq, Repr

/-- `evaluation.Tool`. -/
structure Tool where
  Metadata : FunctionMetaData
  Function : FuncField

/-- The zero value `evaluation.Tool{}`: zero metadata, nil `Function`. -/
def zeroTool : Tool :=
  { Metadata := {}, Function := .notFn none }

/-- `lastResult.Type().Implements(errorInterface)`: in the modelled
universe only the `error` type implements `error`, and the error-typed
values are exactly the `verr` values. -/
def implementsError : GoVal → Bool
  | .verr _ => true
  | _ => false

/-- `evaluation.extractResults` (with `convertResults` inlined as the
identity on the modelled values): splits the callable's return values
into results and an optional trailing error. -/
def extractResults (rs : List GoVal) : List GoVal × Option EvalError :=
  match rs.getLast? with
  | none => ([], none)
  | some last =>
      if implementsError last then
        match last with
        | .verr (some m) => (rs.dropLast, some (.functionReported m))
        | _ => (rs.dropLast, none)
      else (rs, none)

/-- The tail of `Evaluate` after the arity check: argument conversion,
the recover-guarded call (`callFunction`), and result extraction.
`callFunction`'s recover converts a fault in the callable into the
`ErrFunctionPanic`-wrapped message; a reflection panic raised by
`convertArguments` itself is outside that boundary and escapes. -/
def evalWithFunc (f : GoFunc) (args : List GoVal) : EvalResult :=
  match convertArguments args f.params f.variadic with
  | .goPanic m => .goPanic m
  | .typeErr m => .ret [] (some (.argumentType m))
  | .ok vals =>
      match f.impl vals with
      | .panics r => .ret [] (some (.functionPanic (panicMsg vals r)))
      | .ret rs =>
          match extractResults rs with
          | (res, fail) => .ret res fail

/-- `evaluation.Tool.Evaluate`. -/
def Tool.Evaluate (t : Tool) (args : List GoVal) : EvalResult :=
  match t.Function with
  | .notFn _ => .ret [] (some .notAFunction)
  | .fn f =>
      if f.variadic = true then
        if args.length < f.params.length - 1 then
          .ret [] (some (.argumentMismatch
            (countMismatchAtLeastMsg (f.params.length - 1) args.length)))
        else evalWithFunc f args
      else
        if args.length ≠ f.params.length then
          .ret [] (some (.argumentMismatch
            (countMismatchMsg f.params.length args.length)))
        else evalWithFunc f args

/-! ### Association-list model of Go maps

A Go map binds each key at most once.  The maps of the repository
(`ToolStore.tools`, `OllamaEngine.activeTasks`) are modelled as
association lists; map assignment `m[k] = v` is `insertOverwrite`,
`delete(m, k)` is `removeKey`, lookup is `List.lookup`.  Under the
no-duplicate-keys invariant these coincide with Go map semantics. -/

def insertOverwrite {α : Type} : List (String × α) → String → α → List (String × α)
  | [], k, v => [(k, v)]
  | (k2, v2) :: rest, k, v =>
      if k2 = k then (k, v) :: rest
      else (k2, v2) :: insertOverwrite rest k v

def removeKey {α : Type} (l : List (String × α)) (k : String) : List (String × α) :=
  l.filter (fun p => p.1 ≠ k)

/-- Number of bindings a key has in the table. -/
def countKey {α : Type} (l : List (String × α)) (k : String) : Nat :=
  (l.filter (fun p => p.1 = k)).length

/-- The Go-map invariant: no key is bound twice. -/
def NodupKeys {α : Type} (l : List (String × α)) : Prop :=
  (l.map Prod.fst).Nodup

/-! ### `toolstore.ToolStore` (the registry used by the agent) -/

namespace toolstore

/-- The sentinel errors of the `toolstore` package. -/
inductive StoreError where
  | toolNotFound
  | toolExists
  deriving DecidableEq, Repr

/-- `toolstore.ToolStore`: a name-keyed collection of `evaluation.Tool`s.
The logger only emits diagnostics and is not modelled. -/
structure ToolStore where
  tools : List (String × Tool)

/-- `NewToolStore`: the empty registry. -/
def ToolStore.empty : ToolStore := { tools := [] }

/-- `toolstore.ToolStore.AddTool`: fails with `ErrToolExists` — without
mutating the map — when the name is already bound; otherwise inserts. -/
def ToolStore.AddTool (ts : ToolStore) (name : String) (tool : Tool) :
    ToolStore × Option StoreError :=
  if (ts.tools.lookup name).isSome then (ts, some .toolExists)
  else ({ tools := ts.tools ++ [(name, tool)] }, none)

/-- `toolstore.ToolStore.GetTool`: the bound tool, or the zero-value
`Tool{}` together with `ErrToolNotFound`. -/
def ToolStore.GetTool (ts : ToolStore) (name : String) :
    Tool × Option StoreError :=
  match ts.tools.lookup name with
  | some t => (t, none)
  | none => (zeroTool, some .toolNotFound)

/-- `toolstore.ToolStore.RemoveTool`. -/
def ToolStore.RemoveTool (ts : ToolStore) (name : String) :
    ToolStore × Option StoreError :=
  match ts.tools.lookup name with
  | some _ => ({ tools := removeKey ts.tools name }, none)
  | none => (ts, some .toolNotFound)

/-- `toolstore.ToolStore.ListToolNames`. -/
def ToolStore.ListToolNames (ts : ToolStore) : List String :=
  ts.tools.map Prod.fst

end toolstore

/-! ### The older `tools` package registry (`tools.ToolStore`) -/

namespace toolsPkg

/-- `tools.Tool`: like `evaluation.Tool` but with a rendered `Doc`. -/
structure Tool where
  Metadata : FunctionMetaData
  Doc : String
  Function : FuncField

/-- `tools.NewToolStore`'s backing map (the `sync.RWMutex` serialises
access; the operations themselves are sequential map operations). -/
structure ToolStore where
  tools : List (String × Tool)

def ToolStore.empty : ToolStore := { tools := [] }

/-- `tools.ToolStore.AddTool`: an unconditional map assignment — it
returns nothing and silently overwrites an existing binding. -/
def ToolStore.AddTool (ts : ToolStore) (name : String) (tool : Tool) :
    ToolStore :=
  { tools := insertOverwrite ts.tools name tool }

/-- `tools.ToolStore.GetTool`: comma-ok lookup. -/
def ToolStore.GetTool (ts : ToolStore) (name : String) : Tool × Bool :=
  match ts.tools.lookup name with
  | some t => (t, true)
  | none => ({ Metadata := {}, Doc := "", Function := .notFn none }, false)

end toolsPkg

/-! ### `llm.OllamaEngine` (streaming generation engine) -/

namespace llm

/-- `llm.OllamaEngine`'s live-session table: prompt text to cancellation
handle (`context.CancelFunc`), handles identified by numbers.  The
`sync.Mutex` serialises table access; the table operations themselves are
the sequential map operations modelled here. -/
structure OllamaEngine where
  model : String
  activeTasks : List (String × Nat)

/-- `NewOllamaEngine`: empty live-session table. -/
def OllamaEngine.new (model : String) : OllamaEngine :=
  { model := model, activeTasks := [] }

/-- The mutex-guarded registration step of `GenerateTokens` (lines 35-38):
derive a cancel handle for the new context and record it under the prompt
key by map assignment — overwriting any live binding for that prompt.
`GenerateTokens` then returns the token channel and a nil error; it has
no failure path for an existing key. -/
def OllamaEngine.GenerateTokensRegister (o : OllamaEngine) (prompt : String)
    (cancel : Nat) : OllamaEngine × Option String :=
  ({ o with activeTasks := insertOverwrite o.activeTasks prompt cancel }, none)

/-- `llm.OllamaEngine.StopGeneration`: when a live session exists its
cancellation handle is invoked (the `.ok` payload is the handle that was
cancelled) and its binding deleted; otherwise the table is untouched and
the `"not found or already completed"` error is returned. -/
def OllamaEngine.StopGeneration (o : OllamaEngine) (prompt : String) :
    OllamaEngine × Except String Nat :=
  match o.activeTasks.lookup prompt with
  | some cancel =>
      ({ o with activeTasks := removeKey o.activeTasks prompt }, .ok cancel)
  | none =>
      (o, .error ("prompt \"" ++ prompt ++ "\" not found or already completed"))

end llm

/-! ### Concrete fixtures

`DivideFn` embeds `calculator.Divide` (params `(a, b float64)`, returns
`(float64, error)`); the rational model is exact on the claims' inputs.
`SumFn` and `PanicFn` are test callables used to instantiate the
universally quantified theorems: `SumFn` is a variadic `func(...float64)
float64`, `PanicFn` a `func(int)` that raises a runtime fault. -/

/-- `calculator.Divide`'s behaviour on a validated argument vector.  The
catch-all branch is unreachable through `Evaluate`: reflection only calls
the function with two `float64` values. -/
def DivideFn : GoFunc where
  params := [.float64, .float64]
  variadic := false
  impl := fun args =>
    match args with
    | [.vfloat a, .vfloat b] =>
        if b = 0 then
          .ret [.vfloat 0, .verr (some "division by zero is not allowed")]
        else .ret [.vfloat (a / b), .verr none]
    | _ => .panics "unreachable: Divide takes two float64 arguments"

/-- The metadata `parseDocumentation` extracts for `Divide`. -/
def divideMeta : FunctionMetaData where
  FunctionName := "Divide"
  Description := "Divide returns the quotient of two numbers."
  Params := [{ Name := "a", Desc := "The dividend." },
             { Name := "b", Desc := "The divisor." }]
  Return := [{ Typ := "float64",
               Description := "The quotient of a divided by b." }]
  Examples := ["Divide(10, 2) // returns 5"]
  Constraints := [{ Condition := "b != 0", Desc := "b must not be zero." }]

/-- The registered `Divide` tool. -/
def divideTool : Tool where
  Metadata := divideMeta
  Function := .fn DivideFn

/-- Sum of the `float64` values in a vector. -/
def sumFloatVals : List GoVal → ℚ
  | [] => 0
  | .vfloat q :: rest => q + sumFloatVals rest
  | _ :: rest => sumFloatVals rest

/-- A variadic test callable `func(xs ...float64) float64`. -/
def SumFn : GoFunc where
  params := [.slice .float64]
  variadic := true
  impl := fun args => .ret [.vfloat (sumFloatVals args)]

/-- The variadic test tool built from `SumFn`. -/
def sumTool : Tool where
  Metadata := {}
  Function := .fn SumFn

/-- A test callable `func(int)` whose body raises a runtime fault. -/
def PanicFn : GoFunc where
  params := [.int]
  variadic := false
  impl := fun _ => .panics "runtime error: integer divide by zero"

/-- The test tool built from `PanicFn`. -/
def panicTool : Tool where
  Metadata := {}
  Function := .fn PanicFn


/-- One-value reconciliation, the per-position semantics of the
non-variadic conversion loop: a typed value is accepted as-is when
assignable, converted when a conversion exists, and `none` (rejected)
otherwise; an untyped nil has no reconciliation (the loop panics there,
see `convOne`). -/
def reconcileVal (a : GoVal) (t : GoTy) : Option GoVal :=
  match a.ty with
  | none => none
  | some ta => if assignableTo ta t then some a else convertVal a t

/-- Whether an outcome is the `ErrArgumentMismatch`-wrapped failure. -/
def EvalResult.isArgCountMismatch : EvalResult → Bool
  | .ret _ (some (.argumentMismatch _)) => true
  | _ => false

/-- Fixture tools for the `tools`-package registry. -/
def toolA : toolsPkg.Tool :=
  { Metadata := {}, Doc := "first registration", Function := .notFn none }

def toolB : toolsPkg.Tool :=
  { Metadata := {}, Doc := "second registration", Function := .notFn none }

/-! ## General lemmas about the association-list map model -/

theorem lookup_cons {α : Type} (k k2 : String) (v2 : α)
    (l : List (String × α)) :
    ((k2, v2) :: l).lookup k = if k = k2 then some v2 else l.lookup k := by
  by_cases h : k = k2
  · simp [List.lookup, h]
  · simp [List.lookup, h, show (k == k2) = false by simpa using h]

theorem lookup_append_of_eq_none {α : Type} {l1 : List (String × α)}
    (l2 : List (String × α)) (k : String) (h : l1.lookup k = none) :
    (l1 ++ l2).lookup k = l2.lookup k := by
  induction l1 with
  | nil => simp
  | cons p rest ih =>
      obtain ⟨k2, v2⟩ := p
      rw [lookup_cons] at h
      by_cases hk : k = k2
      · simp [hk] at h
      · rw [List.cons_append, lookup_cons, if_neg hk]
        exact ih (by simpa [if_neg hk] using h)

theorem lookup_removeKey_self {α : Type} (l : List (String × α)) (k : String) :
    (removeKey l k).lookup k = none := by
  induction l with
  | nil => rfl
  | cons p rest ih =>
      obtain ⟨k2, v2⟩ := p
      by_cases hk : k2 = k
      · simpa [removeKey, List.filter, hk] using ih
      · have : removeKey ((k2, v2) :: rest) k = (k2, v2) :: removeKey rest k := by
          simp [removeKey, List.filter, hk]
        rw [this, lookup_cons, if_neg (fun h => hk h.symm)]
        exact ih

theorem lookup_insertOverwrite_self {α : Type} (l : List (String × α))
    (k : String) (v : α) :
    (insertOverwrite l k v).lookup k = some v := by
  induction l with
  | nil => simp [insertOverwrite, lookup_cons]
  | cons p rest ih =>
      obtain ⟨k2, v2⟩ := p
      by_cases hk : k2 = k
      · simp [insertOverwrite, hk, lookup_cons]
      · rw [insertOverwrite, if_neg hk, lookup_cons,
          if_neg (fun h => hk h.symm)]
        exact ih

theorem keys_insertOverwrite {α : Type} (l : List (String × α)) (k : String)
    (v : α) :
    (insertOverwrite l k v).map Prod.fst =
      if k ∈ l.map Prod.fst then l.map Prod.fst else l.map Prod.fst ++ [k] := by
  induction l with
  | nil => simp [insertOverwrite]
  | cons p rest ih =>
      obtain ⟨k2, v2⟩ := p
      by_cases hk : k2 = k
      · simp [insertOverwrite, hk]
      · rw [insertOverwrite, if_neg hk]
        by_cases hmem : k ∈ rest.map Prod.fst
        · simp only [List.map, List.mem_cons]
          rw [ih]
          simp [hmem, hk, Ne.symm hk]
        · simp only [List.map, List.mem_cons]
          rw [ih]
          simp [hmem, hk, Ne.symm hk]

theorem nodupKeys_insertOverwrite {α : Type} (l : List (String × α))
    (k : String) (v : α) (h : NodupKeys l) :
    NodupKeys (insertOverwrite l k v) := by
  unfold NodupKeys at h ⊢
  rw [keys_insertOverwrite]
  by_cases hmem : k ∈ l.map Prod.fst
  · simpa [hmem] using h
  · rw [if_neg hmem]
    simp only [List.nodup_append, List.nodup_cons]
    refine ⟨h, by simp, ?_⟩
    intro x hx
    simp only [List.mem_singleton]
    intro hxk
    exact hmem (hxk ▸ hx)

theorem countKey_cons {α : Type} (p : String × α) (l : List (String × α))
    (k : String) :
    countKey (p :: l) k = (if p.1 = k then 1 else 0) + countKey l k := by
  by_cases h : p.1 = k <;> simp [countKey, List.filter, h, Nat.add_comm]

theorem countKey_eq_zero_of_not_mem {α : Type} (l : List (String × α))
    (k : String) (h : k ∉ l.map Prod.fst) : countKey l k = 0 := by
  induction l with
  | nil => rfl
  | cons p rest ih =>
      simp only [List.map, List.mem_cons] at h
      push_neg at h
      rw [countKey_cons, if_neg (fun hh => h.1 hh.symm), ih h.2]

theorem countKey_le_one_of_nodup {α : Type} (l : List (String × α))
    (k : String) (h : NodupKeys l) : countKey l k ≤ 1 := by
  induction l with
  | nil => simp [countKey]
  | cons p rest ih =>
      unfold NodupKeys at h
      simp only [List.map, List.nodup_cons] at h
      rw [countKey_cons]
      by_cases hk : p.1 = k
      · have h0 : countKey rest k = 0 :=
          countKey_eq_zero_of_not_mem rest k (hk ▸ h.1)
        simp [hk, h0]
      · simpa [hk] using ih h.2

theorem countKey_insertOverwrite_self {α : Type} (l : List (String × α))
    (k : String) (v : α) (h : NodupKeys l) :
    countKey (insertOverwrite l k v) k = 1 := by
  induction l with
  | nil => simp [insertOverwrite, countKey, List.filter]
  | cons p rest ih =>
      obtain ⟨k2, v2⟩ := p
      unfold NodupKeys at h
      simp only [List.map, List.nodup_cons] at h
      by_cases hk : k2 = k
      · subst hk
        have h0 : countKey rest k2 = 0 :=
          countKey_eq_zero_of_not_mem rest k2 h.1
        rw [insertOverwrite, if_pos rfl, countKey_cons, if_pos rfl, h0]
      · rw [insertOverwrite, if_neg hk, countKey_cons, if_neg hk,
          ih h.2]


/-! ## General lemmas about the invocation engine -/

theorem extractResults_failure_cases (rs : List GoVal) :
    (extractResults rs).2 = none ∨
      ∃ m, (extractResults rs).2 = some (EvalError.functionReported m) := by
  unfold extractResults
  cases h : rs.getLast? with
  | none => exact Or.inl rfl
  | some last =>
      cases last with
      | verr msg =>
          cases msg with
          | none => exact Or.inl (by simp [implementsError])
          | some m => exact Or.inr ⟨m, by simp [implementsError]⟩
      | vfloat q => exact Or.inl (by simp [implementsError])
      | vint n => exact Or.inl (by simp [implementsError])
      | vstring s => exact Or.inl (by simp [implementsError])
      | vbool b => exact Or.inl (by simp [implementsError])
      | vslice e xs => exact Or.inl (by simp [implementsError])
      | vnil => exact Or.inl (by simp [implementsError])

theorem evalWithFunc_not_argCountMismatch (f : GoFunc) (args : List GoVal) :
    (evalWithFunc f args).isArgCountMismatch = false := by
  unfold evalWithFunc
  cases hc : convertArguments args f.params f.variadic with
  | goPanic m => rfl
  | typeErr m => rfl
  | ok vals =>
      cases hi : f.impl vals with
      | panics r => simp [hi, EvalResult.isArgCountMismatch]
      | ret rs =>
          simp only [hi]
          rcases extractResults_failure_cases rs with h | ⟨m, h⟩ <;>
            rcases hrs : extractResults rs with ⟨res, fail⟩ <;>
              rw [hrs] at h <;> simp only [] at h <;> subst h <;>
                simp [EvalResult.isArgCountMismatch]

theorem Evaluate_eq_evalWithFunc (m : FunctionMetaData) (f : GoFunc)
    (args : List GoVal)
    (h1 : f.variadic = true → f.params.length - 1 ≤ args.length)
    (h2 : f.variadic = false → args.length = f.params.length) :
    Tool.Evaluate ⟨m, .fn f⟩ args = evalWithFunc f args := by
  unfold Tool.Evaluate
  dsimp only
  by_cases hv : f.variadic = true
  · rw [if_pos hv, if_neg (Nat.not_lt.mpr (h1 hv))]
  · rw [if_neg hv]
    have hlen := h2 (by simpa using hv)
    exact if_neg (fun hne => hne hlen)

theorem expectedTypeFor_nonvar (params : List GoTy) (i : Nat) :
    expectedTypeFor params false i = typeIn params i := by
  simp [expectedTypeFor]

theorem typeIn_eq_ok {params : List GoTy} {i : Nat} {t : GoTy}
    (ht : params.get? i = some t) : typeIn params i = Except.ok t := by
  unfold typeIn
  rw [ht]

theorem convArgsFrom_false_cons (params : List GoTy) (i : Nat) (arg : GoVal)
    (rest : List GoVal) :
    convArgsFrom params false i (arg :: rest) =
      match typeIn params i with
      | .error m => ConvRes.goPanic m
      | .ok expected =>
          match convOne expected i arg with
          | .ok vals =>
              match convArgsFrom params false (i + 1) rest with
              | .ok more => ConvRes.ok (vals ++ more)
              | r => r
          | r => r := by
  cases ht : typeIn params i with
  | error m =>
      cases arg <;> simp [convArgsFrom, expectedTypeFor_nonvar, ht]
  | ok expected =>
      cases arg <;> simp [convArgsFrom, expectedTypeFor_nonvar, ht]

theorem convOne_eq_of_reconcile_some (t : GoTy) (i : Nat) (a w : GoVal)
    (h : reconcileVal a t = some w) : convOne t i a = ConvRes.ok [w] := by
  cases hty : a.ty with
  | none => simp [reconcileVal, hty] at h
  | some ta =>
      simp only [reconcileVal, hty] at h
      simp only [convOne, hty]
      by_cases hassign : assignableTo ta t = true
      · rw [if_pos hassign] at h
        simp only [Option.some.injEq] at h
        rw [if_pos hassign, h]
      · rw [if_neg hassign] at h
        rw [if_neg hassign, h]

theorem convOne_typeErr (t ta : GoTy) (i : Nat) (a : GoVal)
    (hty : a.ty = some ta) (hassign : assignableTo ta t = false)
    (hconv : convertVal a t = none) :
    convOne t i a = ConvRes.typeErr (typeMismatchMsg (i + 1) t ta) := by
  simp only [convOne, hty, hassign, Bool.false_eq_true, if_false, hconv]

theorem convOne_nil (t : GoTy) (i : Nat) (a : GoVal) (hty : a.ty = none) :
    convOne t i a = ConvRes.goPanic nilTypePanicMsg := by
  simp only [convOne, hty]

theorem convArgsFrom_nonvar_ok (params : List GoTy) (args : List GoVal)
    (i : Nat) (hlen : i + args.length ≤ params.length)
    (hrec : ∀ j a t, args.get? j = some a → params.get? (i + j) = some t →
        (reconcileVal a t).isSome = true) :
    ∃ vals : List GoVal, convArgsFrom params false i args = ConvRes.ok vals ∧
      vals.length = args.length ∧
      (∀ j a t, args.get? j = some a → params.get? (i + j) = some t →
          vals.get? j = reconcileVal a t) := by
  induction args generalizing i with
  | nil => exact ⟨[], rfl, rfl, by intro j a t h; simp at h⟩
  | cons a rest ih =>
      have hi : i < params.length := by
        simp only [List.length_cons] at hlen; omega
      obtain ⟨t, ht⟩ : ∃ t, params.get? i = some t := by
        rw [List.get?_eq_get hi]; exact ⟨_, rfl⟩
      have h0 := hrec 0 a t rfl (by simpa using ht)
      obtain ⟨w, hw⟩ := Option.isSome_iff_exists.mp h0
      have hrest := ih (i + 1)
        (by simp only [List.length_cons] at hlen; omega)
        (fun j b u hb hu => by
          have harith : i + 1 + j = i + (j + 1) := by omega
          exact hrec (j + 1) b u (by simpa using hb)
            (by rw [harith] at hu; exact hu))
      obtain ⟨vals, hv, hvlen, hvget⟩ := hrest
      refine ⟨w :: vals, ?_, by simp [hvlen], ?_⟩
      · rw [convArgsFrom_false_cons, typeIn_eq_ok ht]
        dsimp only
        rw [convOne_eq_of_reconcile_some t i a w hw]
        dsimp only
        rw [hv]
        rfl
      · intro j b u hb hu
        cases j with
        | zero =>
            simp only [List.get?] at hb hu ⊢
            rw [Nat.add_zero] at hu
            rw [ht] at hu
            cases hb; cases hu
            simpa using hw.symm
        | succ j =>
            have harith : i + (j + 1) = i + 1 + j := by omega
            exact hvget j b u (by simpa using hb) (by rw [← harith]; exact hu)

theorem convArgsFrom_nonvar_stop (params : List GoTy) (args : List GoVal)
    (i k : Nat) (a : GoVal) (t : GoTy) (r : ConvRes)
    (hk : args.get? k = some a) (ht : params.get? (i + k) = some t)
    (hhead : convOne t (i + k) a = r) (hne : ∀ vals, r ≠ ConvRes.ok vals)
    (hpre : ∀ j b u, j < k → args.get? j = some b →
        params.get? (i + j) = some u → (reconcileVal b u).isSome = true) :
    convArgsFrom params false i args = r := by
  induction args generalizing i k with
  | nil => simp at hk
  | cons a0 rest ih =>
      cases k with
      | zero =>
          simp only [List.get?, Option.some.injEq] at hk
          cases hk
          rw [Nat.add_zero] at ht hhead
          rw [convArgsFrom_false_cons, typeIn_eq_ok ht]
          dsimp only
          rw [hhead]
          cases r with
          | ok vals => exact absurd rfl (hne vals)
          | typeErr m => rfl
          | goPanic m => rfl
      | succ k =>
          have hi : i < params.length := by
            obtain ⟨hlt, -⟩ := List.get?_eq_some.mp ht
            omega
          obtain ⟨t0, ht0⟩ : ∃ t0, params.get? i = some t0 := by
            rw [List.get?_eq_get hi]; exact ⟨_, rfl⟩
          have h0 := hpre 0 a0 t0 (Nat.succ_pos k) rfl (by simpa using ht0)
          obtain ⟨w, hw⟩ := Option.isSome_iff_exists.mp h0
          rw [convArgsFrom_false_cons, typeIn_eq_ok ht0]
          dsimp only
          rw [convOne_eq_of_reconcile_some t0 i a0 w hw]
          dsimp only
          have harith : i + 1 + k = i + (k + 1) := by omega
          have htail := ih (i + 1) k (by simpa using hk)
            (by rw [harith]; exact ht) (by rw [harith]; exact hhead)
            (fun j b u hj hb hu => by
              have ha2 : i + (j + 1) = i + 1 + j := by omega
              exact hpre (j + 1) b u (by omega) (by simpa using hb)
                (by rw [ha2]; exact hu))
          rw [htail]
          cases r with
          | ok vals => exact absurd rfl (hne vals)
          | typeErr m => rfl
          | goPanic m => rfl


/-! ## Lemmas about the variadic tail -/

theorem expectedTypeFor_tail (params : List GoTy) (e : GoTy) (i : Nat)
    (hlast : params.getLast? = some (GoTy.slice e))
    (hi : params.length - 1 ≤ i) :
    expectedTypeFor params true i = Except.ok e := by
  have hget : params.get? (params.length - 1) = some (GoTy.slice e) := by
    rw [← List.getLast?_eq_get?]
    exact hlast
  unfold expectedTypeFor
  rw [if_pos ⟨rfl, hi⟩, typeIn_eq_ok hget]
  rfl

theorem checkSliceElemsFrom_assignable (expected sElem : GoTy) (pos : Nat)
    (h : assignableTo sElem expected = true) :
    ∀ (j : Nat) (elems : List GoVal),
      checkSliceElemsFrom expected sElem pos j elems = Except.ok elems := by
  intro j elems
  induction elems generalizing j with
  | nil => rfl
  | cons e rest ih =>
      unfold checkSliceElemsFrom
      rw [if_pos h, ih (j + 1)]

theorem checkSliceElemsFrom_reject (expected sElem : GoTy) (pos j : Nat)
    (e : GoVal) (rest : List GoVal) (h : assignableTo sElem expected = false) :
    checkSliceElemsFrom expected sElem pos j (e :: rest) =
      Except.error (elemMismatchMsg pos j expected sElem) := by
  unfold checkSliceElemsFrom
  rw [if_neg (by simp [h])]

theorem convArgsFrom_true_cons_slice (params : List GoTy) (i : Nat)
    (sElem : GoTy) (elems rest : List GoVal) (hi : params.length - 1 ≤ i) :
    convArgsFrom params true i (GoVal.vslice sElem elems :: rest) =
      match expectedTypeFor params true i with
      | .error m => ConvRes.goPanic m
      | .ok expected =>
          match checkSliceElemsFrom expected sElem (i + 1) 1 elems with
          | .ok vals =>
              match convArgsFrom params true (i + 1) rest with
              | .ok more => ConvRes.ok (vals ++ more)
              | r => r
          | .error m => ConvRes.typeErr m := by
  cases hexp : expectedTypeFor params true i with
  | error m => simp [convArgsFrom, hexp, hi]
  | ok expected =>
      simp only [convArgsFrom, hexp, hi, and_self, if_true, true_and]
      cases checkSliceElemsFrom expected sElem (i + 1) 1 elems <;> rfl


/-! ## Claim theorems -/

/-- C1 (counterexample): on `invoke("Divide", [10.0, 0.0])` the engine does
NOT return `results = []`: `extractResults` keeps the non-error return
values, so the result list is `[0.0]` (the zero value `Divide` returns
alongside its error).  The failure itself is, as the claim says, the
callable's own returned error. -/
theorem C1_counterexample :
    Tool.Evaluate divideTool [.vfloat 10, .vfloat 0] =
      .ret [.vfloat 0]
        (some (.functionReported "division by zero is not allowed")) ∧
    ¬ Tool.Evaluate divideTool [.vfloat 10, .vfloat 0] =
        .ret [] (some (.functionReported "division by zero is not allowed")) := by
  refine ⟨rfl, ?_⟩
  intro h
  rw [show Tool.Evaluate divideTool [.vfloat 10, .vfloat 0] =
      .ret [.vfloat 0]
        (some (.functionReported "division by zero is not allowed")) from rfl] at h
  simp at h

/-- C1 (amended): registering `Divide` and invoking it end to end:
`invoke("Divide", [10.0, 2.0])` yields `results = [5.0]` and no failure;
`invoke("Divide", [10.0, 0.0])` yields `results = [0.0]` (not `[]`)
together with the division-by-zero failure, which is the callable's own
returned error (`functionReported`), not an `InternalInvocationFailure`
(`functionPanic`). -/
theorem C1_divide_end_to_end :
    (toolstore.ToolStore.empty.AddTool "Divide" divideTool).2 = none ∧
    (toolstore.ToolStore.empty.AddTool "Divide" divideTool).1.GetTool "Divide" =
      (divideTool, none) ∧
    Tool.Evaluate divideTool [.vfloat 10, .vfloat 2] = .ret [.vfloat 5] none ∧
    Tool.Evaluate divideTool [.vfloat 10, .vfloat 0] =
      .ret [.vfloat 0]
        (some (.functionReported "division by zero is not allowed")) := by
  refine ⟨rfl, rfl, ?_, rfl⟩
  have h : (10:ℚ) / 2 = 5 := by norm_num
  simp [Tool.Evaluate, divideTool, DivideFn, evalWithFunc, convertArguments,
    convArgsFrom, expectedTypeFor, typeIn, convOne, GoVal.ty, assignableTo,
    extractResults, implementsError, h]

/-- C4 (counterexample): the claim fails for the `tools`-package registry:
its `AddTool` silently overwrites — after registering `toolA` and then
`toolB` under the same name, the stored tool is `toolB`, not `toolA`, and
no error is reported anywhere. -/
theorem C4_counterexample :
    ((toolsPkg.ToolStore.empty.AddTool "f" toolA).AddTool "f" toolB).GetTool "f" =
      (toolB, true) ∧ toolB ≠ toolA := by
  constructor
  · rfl
  · intro h
    have hdoc : toolB.Doc = toolA.Doc := by rw [h]
    exact absurd hdoc (by decide)

/-- C4 (amended): the no-overwrite contract holds for the
`toolstore.ToolStore` registry (the one the agent uses): a second
registration under a live name fails with `ErrToolExists` and leaves the
registry exactly unchanged, so the stored tool and the listed names are
those of the first registration; the older `tools`-package registry
instead overwrites silently (see the counterexample). -/
theorem C4_register_no_overwrite (ts : toolstore.ToolStore) (name : String)
    (t1 t2 : Tool) (h : ts.tools.lookup name = none) :
    (ts.AddTool name t1).2 = none ∧
    (ts.AddTool name t1).1.AddTool name t2 =
      ((ts.AddTool name t1).1, some .toolExists) ∧
    (ts.AddTool name t1).1.GetTool name = (t1, none) ∧
    (ts.AddTool name t1).1.ListToolNames = ts.ListToolNames ++ [name] := by
  have hadd : ts.AddTool name t1 = ({ tools := ts.tools ++ [(name, t1)] }, none) := by
    unfold toolstore.ToolStore.AddTool
    rw [h]
    rfl
  have hl : (ts.tools ++ [(name, t1)]).lookup name = some t1 := by
    rw [lookup_append_of_eq_none _ _ h, lookup_cons, if_pos rfl]
  refine ⟨by rw [hadd], ?_, ?_, ?_⟩
  · rw [hadd]
    unfold toolstore.ToolStore.AddTool
    dsimp only
    rw [hl]
    rfl
  · rw [hadd]
    unfold toolstore.ToolStore.GetTool
    dsimp only
    rw [hl]
  · rw [hadd]
    simp [toolstore.ToolStore.ListToolNames]

/-- C4 (witness): double registration of `Divide` on the empty registry
reports the conflict and lists one name. -/
theorem C4_witness :
    (toolstore.ToolStore.empty.AddTool "Divide" divideTool).1.AddTool
        "Divide" divideTool =
      ((toolstore.ToolStore.empty.AddTool "Divide" divideTool).1,
        some .toolExists) ∧
    (toolstore.ToolStore.empty.AddTool "Divide" divideTool).1.ListToolNames =
      ["Divide"] := by
  have h := C4_register_no_overwrite toolstore.ToolStore.empty "Divide"
    divideTool divideTool rfl
  exact ⟨h.2.1, by simpa using h.2.2.2⟩

/-- C7: `StopGeneration` on a live key invokes that session's cancellation
handle (the `.ok` payload), deletes the binding, and succeeds; on an
unknown or already-finished key it fails with the not-found error and
leaves the table untouched; in either case the key is not live
afterwards. -/
theorem C7_stop_generation (o : llm.OllamaEngine) (key : String) :
    (∀ c, o.activeTasks.lookup key = some c →
        o.StopGeneration key =
          ({ o with activeTasks := removeKey o.activeTasks key },
            Except.ok c)) ∧
    (o.activeTasks.lookup key = none →
        o.StopGeneration key =
          (o, Except.error
            ("prompt \"" ++ key ++ "\" not found or already completed"))) ∧
    (o.StopGeneration key).1.activeTasks.lookup key = none := by
  unfold llm.OllamaEngine.StopGeneration
  refine ⟨?_, ?_, ?_⟩
  · intro c hc
    rw [hc]
  · intro hc
    rw [hc]
  · cases hc : o.activeTasks.lookup key with
    | none => rw [hc]
    | some c =>
        dsimp only
        exact lookup_removeKey_self _ _

/-- C7 (witness): stopping a live session and stopping an unknown key on
concrete tables. -/
theorem C7_witness :
    llm.OllamaEngine.StopGeneration { model := "m", activeTasks := [("p", 5)] } "p" =
      ({ model := "m", activeTasks := [] }, Except.ok 5) ∧
    llm.OllamaEngine.StopGeneration { model := "m", activeTasks := [] } "q" =
      ({ model := "m", activeTasks := [] },
        Except.error "prompt \"q\" not found or already completed") := by
  constructor
  · have h := (C7_stop_generation
      { model := "m", activeTasks := [("p", 5)] } "p").1 5 rfl
    simpa [removeKey, List.filter] using h
  · have h := (C7_stop_generation
      { model := "m", activeTasks := [] } "q").2.1 rfl
    simpa using h

/-- C8: the live-session table binds each key at most once (the no-dup
invariant is preserved by registration, and every key has at most one
binding), and registering a second generation under a live key does not
fail: it silently overwrites the stored cancellation handle, leaving
exactly one binding holding the new handle. -/
theorem C8_session_overwrite (o : llm.OllamaEngine) (p : String) (c1 c2 : Nat)
    (hnd : NodupKeys o.activeTasks) :
    (o.GenerateTokensRegister p c1).2 = none ∧
    NodupKeys ((o.GenerateTokensRegister p c1).1).activeTasks ∧
    (∀ k, countKey ((o.GenerateTokensRegister p c1).1).activeTasks k ≤ 1) ∧
    ((o.GenerateTokensRegister p c1).1.GenerateTokensRegister p c2).2 = none ∧
    ((o.GenerateTokensRegister p c1).1.GenerateTokensRegister p c2).1.activeTasks.lookup p
      = some c2 ∧
    countKey
      ((o.GenerateTokensRegister p c1).1.GenerateTokensRegister p c2).1.activeTasks
      p = 1 := by
  unfold llm.OllamaEngine.GenerateTokensRegister
  dsimp only
  have h1 : NodupKeys (insertOverwrite o.activeTasks p c1) :=
    nodupKeys_insertOverwrite _ _ _ hnd
  exact ⟨rfl, h1, fun k => countKey_le_one_of_nodup _ _ h1, rfl,
    lookup_insertOverwrite_self _ _ _, countKey_insertOverwrite_self _ _ _ h1⟩

/-- C8 (witness): registering twice under the same prompt on a fresh
engine leaves exactly one binding, holding the second handle. -/
theorem C8_witness :
    ((({ model := "m", activeTasks := [] } :
        llm.OllamaEngine).GenerateTokensRegister "p" 1).1.GenerateTokensRegister
          "p" 2).1.activeTasks.lookup "p" = some 2 ∧
    countKey
      ((({ model := "m", activeTasks := [] } :
        llm.OllamaEngine).GenerateTokensRegister "p" 1).1.GenerateTokensRegister
          "p" 2).1.activeTasks "p" = 1 := by
  have h := C8_session_overwrite { model := "m", activeTasks := [] } "p" 1 2
    (by simp [NodupKeys])
  exact ⟨h.2.2.2.2.1, h.2.2.2.2.2⟩

/-- C10: `Evaluate` on a `Tool` whose `Function` field holds no function
value — in particular the zero-value `Tool` that `GetTool` returns next
to a lookup failure — returns `ErrNotAFunction` whatever the arguments
are (even a nil argument: neither conversion nor the call is reached),
and `GetTool`/`Evaluate` are pure, so no state changes. -/
theorem C10_not_a_function (m : FunctionMetaData) (v : Option GoVal)
    (args : List GoVal) (ts : toolstore.ToolStore) (name : String)
    (h : ts.tools.lookup name = none) :
    Tool.Evaluate ⟨m, .notFn v⟩ args = .ret [] (some .notAFunction) ∧
    ts.GetTool name = (zeroTool, some .toolNotFound) ∧
    zeroTool.Evaluate args = .ret [] (some .notAFunction) := by
  refine ⟨rfl, ?_, rfl⟩
  unfold toolstore.ToolStore.GetTool
  rw [h]

/-- C10 (witness): the zero tool from a failed lookup, evaluated on a nil
argument, reports `ErrNotAFunction` rather than panicking. -/
theorem C10_witness :
    Tool.Evaluate ⟨{}, .notFn (some (.vint 3))⟩ [GoVal.vnil] =
      .ret [] (some .notAFunction) ∧
    toolstore.ToolStore.empty.GetTool "missing" = (zeroTool, some .toolNotFound) ∧
    zeroTool.Evaluate [GoVal.vnil] = .ret [] (some .notAFunction) :=
  C10_not_a_function {} (some (.vint 3)) [GoVal.vnil]
    toolstore.ToolStore.empty "missing" rfl


/-- C2: arity checking.  Non-variadic: whenever the argument count differs
from the declared parameter count, `Evaluate` returns the
`ArgumentCountMismatch` failure — an equation whose right-hand side does
not mention the callable, and explicitly for every implementation of the
callable the result is that same failure, so the callable is never
invoked.  Variadic: the outcome is an `ArgumentCountMismatch` exactly
when fewer than `numDeclared - 1` arguments are supplied.  For every
position in the variadic tail (index `>= numDeclared - 1`) the expected
type the loop matches against is the variadic parameter's element
type. -/
theorem C2_arity_check (m : FunctionMetaData) (f : GoFunc)
    (args : List GoVal) :
    (f.variadic = false → args.length ≠ f.params.length →
        Tool.Evaluate ⟨m, .fn f⟩ args =
          .ret [] (some (.argumentMismatch
            (countMismatchMsg f.params.length args.length)))) ∧
    (f.variadic = true →
        ((Tool.Evaluate ⟨m, .fn f⟩ args).isArgCountMismatch = true ↔
          args.length < f.params.length - 1)) ∧
    (∀ e i, f.params.getLast? = some (GoTy.slice e) →
        f.params.length - 1 ≤ i →
        expectedTypeFor f.params true i = Except.ok e) ∧
    (f.variadic = false → args.length ≠ f.params.length →
        ∀ g : List GoVal → FuncCallResult,
          Tool.Evaluate ⟨m, .fn ⟨f.params, false, g⟩⟩ args =
            Tool.Evaluate ⟨m, .fn f⟩ args) := by
  have hmiss : ∀ (f2 : GoFunc), f2.variadic = false → f2.params = f.params →
      args.length ≠ f.params.length →
      Tool.Evaluate ⟨m, .fn f2⟩ args =
        .ret [] (some (.argumentMismatch
          (countMismatchMsg f.params.length args.length))) := by
    intro f2 hv hp hne
    unfold Tool.Evaluate
    dsimp only
    rw [hv]
    simp [hp, hne]
  refine ⟨fun hv hne => hmiss f hv rfl hne, ?_, ?_, ?_⟩
  · intro hv
    by_cases hlt : args.length < f.params.length - 1
    · have heval : Tool.Evaluate ⟨m, .fn f⟩ args =
          .ret [] (some (.argumentMismatch
            (countMismatchAtLeastMsg (f.params.length - 1) args.length))) := by
        unfold Tool.Evaluate
        dsimp only
        rw [hv]
        simp [hlt]
      rw [heval]
      simp [EvalResult.isArgCountMismatch, hlt]
    · rw [Evaluate_eq_evalWithFunc m f args (fun _ => Nat.not_lt.mp hlt)
        (fun hf => absurd hv (by simp [hf]))]
      simp [evalWithFunc_not_argCountMismatch, hlt]
  · intro e i hlast hi
    exact expectedTypeFor_tail f.params e i hlast hi
  · intro hv hne g
    rw [hmiss ⟨f.params, false, g⟩ rfl rfl hne, hmiss f hv rfl hne]

/-- C2 (witness): `Divide` (non-variadic, 2 parameters) with one argument
fails with the count mismatch; the variadic `SumFn` with zero arguments
does not (0 < 0 is false); the tail position 3 of `func(...float64)` is
matched against `float64`. -/
theorem C2_witness :
    Tool.Evaluate ⟨{}, .fn DivideFn⟩ [.vfloat 1] =
      .ret [] (some (.argumentMismatch (countMismatchMsg 2 1))) ∧
    ((Tool.Evaluate ⟨{}, .fn SumFn⟩ []).isArgCountMismatch = true ↔
      (0:Nat) < 0) ∧
    expectedTypeFor [GoTy.slice GoTy.float64] true 3 =
      Except.ok GoTy.float64 := by
  refine ⟨?_, ?_, ?_⟩
  · exact (C2_arity_check {} DivideFn [.vfloat 1]).1 rfl (by decide)
  · exact (C2_arity_check {} SumFn []).2.1 rfl
  · exact (C2_arity_check {} SumFn []).2.2.1 GoTy.float64 3 rfl (by decide)

/-- C3 (counterexample): a standard conversion from `int` to `float64`
exists, yet unpacking `[]int{1}` against a `...float64` parameter is
rejected: unpacked slice elements are only checked for assignability,
never converted, contradicting the claim's "converted if a standard
conversion exists". -/
theorem C3_counterexample :
    (convertVal (GoVal.vint 1) GoTy.float64).isSome = true ∧
    Tool.Evaluate sumTool [.vslice .int [.vint 1]] =
      .ret [] (some (.argumentType
        "argument 1 (element 1): expected float64, got int")) :=
  ⟨rfl, rfl⟩

/-- C3 (amended): when the single trailing argument of a variadic call is
itself a slice, its elements are unpacked and each is checked
individually against the variadic element type — accepted when the
slice's element type is assignable to it, rejected (naming argument and
element positions) otherwise; no conversion is attempted for unpacked
elements, and the slice is never reconciled as one value against the
element type. -/
theorem C3_variadic_slice_unpack (params : List GoTy) (e sTy : GoTy)
    (elems : List GoVal) (i : Nat)
    (hlast : params.getLast? = some (GoTy.slice e))
    (hi : params.length - 1 ≤ i) :
    convArgsFrom params true i [GoVal.vslice sTy elems] =
      if assignableTo sTy e = true then ConvRes.ok elems
      else if elems.isEmpty then ConvRes.ok []
      else ConvRes.typeErr (elemMismatchMsg (i + 1) 1 e sTy) := by
  rw [convArgsFrom_true_cons_slice params i sTy elems [] hi,
    expectedTypeFor_tail params e i hlast hi]
  dsimp only
  by_cases hassign : assignableTo sTy e = true
  · rw [checkSliceElemsFrom_assignable e sTy (i + 1) hassign 1 elems]
    dsimp only
    rw [if_pos hassign]
    simp [convArgsFrom]
  · have hb : assignableTo sTy e = false := by simpa using hassign
    cases elems with
    | nil =>
        have h0 : checkSliceElemsFrom e sTy (i + 1) 1 ([] : List GoVal) =
            Except.ok [] := rfl
        rw [h0]
        dsimp only
        rw [if_neg hassign]
        rfl
    | cons e0 rest =>
        rw [checkSliceElemsFrom_reject e sTy (i + 1) 1 e0 rest hb]
        dsimp only
        rw [if_neg hassign]
        rfl

/-- C3 (witness): unpacking `[]float64{2, 3}` against `...float64`
accepts both elements. -/
theorem C3_witness :
    convArgsFrom [GoTy.slice GoTy.float64] true 0
      [GoVal.vslice GoTy.float64 [GoVal.vfloat 2, GoVal.vfloat 3]] =
      ConvRes.ok [GoVal.vfloat 2, GoVal.vfloat 3] := by
  have h := C3_variadic_slice_unpack [GoTy.slice GoTy.float64] GoTy.float64
    GoTy.float64 [GoVal.vfloat 2, GoVal.vfloat 3] 0 rfl (by decide)
  simpa [assignableTo] using h

/-- C5: a runtime fault raised inside the underlying callable during an
invocation whose arity and argument types pass validation is caught at
the call boundary: `Evaluate` returns normally with the
`ErrFunctionPanic`-wrapped failure whose message carries the argument
values and the panic payload; it never escapes as an uncaught fault
(`goPanic`).  The engine holds no state across calls — `Evaluate` is a
pure function of the tool and the arguments — so the caller's subsequent
calls are unaffected. -/
theorem C5_panic_contained (m : FunctionMetaData) (f : GoFunc)
    (args vals : List GoVal) (r : String)
    (h1 : f.variadic = true → f.params.length - 1 ≤ args.length)
    (h2 : f.variadic = false → args.length = f.params.length)
    (hconv : convertArguments args f.params f.variadic = ConvRes.ok vals)
    (himpl : f.impl vals = FuncCallResult.panics r) :
    Tool.Evaluate ⟨m, .fn f⟩ args =
      .ret [] (some (.functionPanic (panicMsg vals r))) := by
  rw [Evaluate_eq_evalWithFunc m f args h1 h2]
  unfold evalWithFunc
  rw [hconv]
  dsimp only
  rw [himpl]

/-- C5 (witness): a callable that raises a fault on `[7]` yields the
contained `functionPanic` outcome. -/
theorem C5_witness :
    Tool.Evaluate panicTool [.vint 7] =
      .ret [] (some (.functionPanic
        (panicMsg [.vint 7] "runtime error: integer divide by zero"))) :=
  C5_panic_contained {} PanicFn [.vint 7] [.vint 7]
    "runtime error: integer divide by zero"
    (fun h => absurd h (by decide)) (fun _ => rfl) rfl rfl

/-- C6: per-position reconciliation for non-variadic calls.  First, the
step semantics: a typed value whose type is assignable to the expected
type is accepted as-is, otherwise the standard conversion is applied
when it exists.  Second, when every position reconciles, conversion
succeeds with exactly the pointwise-reconciled vector.  Third, when the
first failing position `k` holds a value that is neither assignable nor
convertible, `Evaluate` fails with `ArgumentTypeMismatch` naming the
1-based position `k+1`, the expected type, and the actual type — by an
equation whose right-hand side does not mention the callable, which is
therefore not invoked. -/
theorem C6_type_reconciliation (m : FunctionMetaData) (f : GoFunc)
    (args : List GoVal) (hv : f.variadic = false)
    (hlen : args.length = f.params.length) :
    (∀ a t ta, GoVal.ty a = some ta →
        ((assignableTo ta t = true → reconcileVal a t = some a) ∧
         (assignableTo ta t = false → reconcileVal a t = convertVal a t))) ∧
    ((∀ j a t, args.get? j = some a → f.params.get? j = some t →
          (reconcileVal a t).isSome = true) →
        ∃ vals, convertArguments args f.params f.variadic = ConvRes.ok vals ∧
          vals.length = args.length ∧
          (∀ j a t, args.get? j = some a → f.params.get? j = some t →
              vals.get? j = reconcileVal a t)) ∧
    (∀ k a ta t, args.get? k = some a → f.params.get? k = some t →
        GoVal.ty a = some ta → assignableTo ta t = false →
        convertVal a t = none →
        (∀ j b u, j < k → args.get? j = some b → f.params.get? j = some u →
            (reconcileVal b u).isSome = true) →
        Tool.Evaluate ⟨m, .fn f⟩ args =
          .ret [] (some (.argumentType (typeMismatchMsg (k + 1) t ta)))) := by
  refine ⟨?_, ?_, ?_⟩
  · intro a t ta hta
    exact ⟨fun hassign => by simp [reconcileVal, hta, hassign],
      fun hassign => by simp [reconcileVal, hta, hassign]⟩
  · intro hrec
    rw [hv]
    have h := convArgsFrom_nonvar_ok f.params args 0 (by omega)
      (fun j a t hj ht => hrec j a t hj (by simpa using ht))
    simpa [convertArguments] using h
  · intro k a ta t hk ht hta hassign hconv hpre
    rw [Evaluate_eq_evalWithFunc m f args (fun h => absurd h (by simp [hv]))
      (fun _ => hlen)]
    unfold evalWithFunc
    rw [hv]
    have hstop := convArgsFrom_nonvar_stop f.params args 0 k a t _
      hk (by simpa using ht)
      (convOne_typeErr t ta (0 + k) a hta hassign hconv)
      (fun vals h => ConvRes.noConfusion h)
      (fun j b u hj hb hu => hpre j b u hj hb (by simpa using hu))
    rw [show convertArguments args f.params false =
        ConvRes.typeErr (typeMismatchMsg (0 + k + 1) t ta) from hstop]
    dsimp only
    simp

/-- C6 (witness): `Divide` with a string in the second position fails
naming position 2, expected `float64`, actual `string`. -/
theorem C6_witness :
    Tool.Evaluate divideTool [.vfloat 10, .vstring "x"] =
      .ret [] (some (.argumentType
        (typeMismatchMsg 2 GoTy.float64 GoTy.str))) ∧
    typeMismatchMsg 2 GoTy.float64 GoTy.str =
      "argument 2: expected float64, got string" := by
  constructor
  · exact (C6_type_reconciliation {} DivideFn [.vfloat 10, .vstring "x"]
      rfl rfl).2.2 1 (.vstring "x") GoTy.str GoTy.float64 rfl rfl rfl rfl rfl
      (fun j b u hj hb hu => by
        have hj0 : j = 0 := by omega
        subst hj0
        simp only [List.get?, Option.some.injEq] at hb hu
        subst hb
        subst hu
        rfl)
  · rfl

/-- C9: a nil argument at a checked position of a non-variadic call — all
earlier positions reconciling — makes `Evaluate` panic uncaught: the
reconciliation loop calls `Type()` on the invalid zero `reflect.Value`,
and that happens outside the recover boundary (which wraps only the
call step), so no `ArgumentTypeMismatch` is returned: the outcome is the
escaped `goPanic`, not a `ret`. -/
theorem C9_nil_argument_panics (m : FunctionMetaData) (f : GoFunc)
    (args : List GoVal) (k : Nat) (t : GoTy)
    (hv : f.variadic = false) (hlen : args.length = f.params.length)
    (hk : args.get? k = some GoVal.vnil) (ht : f.params.get? k = some t)
    (hpre : ∀ j b u, j < k → args.get? j = some b →
        f.params.get? j = some u → (reconcileVal b u).isSome = true) :
    Tool.Evaluate ⟨m, .fn f⟩ args = .goPanic nilTypePanicMsg := by
  rw [Evaluate_eq_evalWithFunc m f args (fun h => absurd h (by simp [hv]))
    (fun _ => hlen)]
  unfold evalWithFunc
  rw [hv]
  have hstop := convArgsFrom_nonvar_stop f.params args 0 k GoVal.vnil t _
    hk (by simpa using ht) (convOne_nil t (0 + k) GoVal.vnil rfl)
    (fun vals h => ConvRes.noConfusion h)
    (fun j b u hj hb hu => hpre j b u hj hb (by simpa using hu))
  rw [show convertArguments args f.params false =
      ConvRes.goPanic nilTypePanicMsg from hstop]

/-- C9 (witness): `invoke("Divide", [10.0, nil])` panics uncaught with the
reflect zero-Value message. -/
theorem C9_witness :
    Tool.Evaluate divideTool [.vfloat 10, GoVal.vnil] =
      .goPanic nilTypePanicMsg :=
  C9_nil_argument_panics {} DivideFn [.vfloat 10, GoVal.vnil] 1 GoTy.float64
    rfl rfl rfl rfl
    (fun j b u hj hb hu => by
      have hj0 : j = 0 := by omega
      subst hj0
      simp only [List.get?, Option.some.injEq] at hb hu
      subst hb
      subst hu
      rfl)

end GoAgent
